import Mathlib

/-!
Verification of the `nestedfunctions` whitelist (field-selector) module

Shallow embedding of `nestedfunctions/functions/whitelist.py`.

A Spark schema is represented by its flattened dotted-path set (a `List String`
without a fixed order commitment; all statements are membership-based where the
Python code uses sets).  A dataframe is represented by that flattened schema
plus an abstract row count.  The engine-side collaborators
(`SparkSchemaUtility.flatten_schema` / `is_column_exist`, `distinct`, `drop`,
`df.limit(0)`, `df.cache()`) are not part of `src/`; they are modelled from the
contracts of the spec (sections 4.1, 4.2 step 1, 6) and each such definition is
marked `Modelled from the spec` in its doc comment.  Everything else is a
direct translation of the Python in `whitelist.py`.
-/

namespace NestedFunctions

/-- The Python substring test `needle in hay` on strings (the `in` operator),
as used by `is_field_need_to_be_dropped` and `__replace_elements_with_root`. -/
def strIn (needle hay : String) : Bool :=
  decide (needle.data <:+: hay.data)

/-- Modelled from the spec: `distinct` lives in
`nestedfunctions/utils/iterators/iterator_utils.py`, which is not under `src/`.
Spec 4.2 step 1: de-duplicate the requested paths, preserving
first-occurrence order. -/
def distinct : List String → List String
  | [] => []
  | x :: xs => x :: (distinct xs).filter (fun y => y != x)

/-- Modelled from the spec: `SparkSchemaUtility.is_column_exist` lives in
`nestedfunctions/spark_schema/utility.py`, which is not under `src/`.
Spec 4.1: the schema flattener provides the flat set of all dotted paths and a
membership test `exists(schema, path)`.  With schemas represented by their
flattened path sets, existence is membership. -/
def is_column_exist (allFields : List String) (field : String) : Bool :=
  allFields.contains field

/-- `os.path.commonprefix`: the longest common character prefix of two words. -/
def common_pref : List Char → List Char → List Char
  | a :: as, b :: bs => if a = b then a :: common_pref as bs else []
  | _, _ => []

/-- `os.path.commonprefix` on strings. -/
def common_pref_str (s t : String) : String :=
  String.mk (common_pref s.data t.data)

/-- `itertools.combinations(fields, 2)`: all unordered pairs in list order. -/
def combinations2 : List String → List (String × String)
  | [] => []
  | x :: xs => xs.map (fun y => (x, y)) ++ combinations2 xs

/-- The `root_elements` set computed inside `filter_only_parents_fields`:
fields that equal a nonempty common prefix of some pair of fields. -/
def root_elements (fields : List String) : List String :=
  fields.filter (fun f =>
    f != "" && (combinations2 fields).any (fun pr => common_pref_str pr.1 pr.2 == f))

/-- `filter_only_parents_fields` logs a warning exactly when `root_elements`
is nonempty. -/
def warning_emitted (fields : List String) : Bool :=
  !(root_elements fields).isEmpty

/-- The loop body of `__replace_elements_with_root`, carrying the
`root_added` flag. -/
def replace_elements_with_root_go (root : String) : List String → Bool → List String
  | [], _ => []
  | f :: fs, root_added =>
    if strIn root f then
      if root_added then replace_elements_with_root_go root fs true
      else root :: replace_elements_with_root_go root fs true
    else f :: replace_elements_with_root_go root fs root_added

/-- `__replace_elements_with_root(fields, root)`. -/
def replace_elements_with_root (fields : List String) (root : String) : List String :=
  replace_elements_with_root_go root fields false

/-- `__replace_elements_with_roots(fields, roots)`.  Python iterates over the
`roots` set; the embedding fixes the iteration order to be the order of the
`roots` list (callers pass `root_elements fields`, which is in `fields` order). -/
def replace_elements_with_roots (fields : List String) (roots : List String) : List String :=
  roots.foldl replace_elements_with_root fields

/-- `filter_only_parents_fields(fields)`. -/
def filter_only_parents_fields (fields : List String) : List String :=
  replace_elements_with_roots fields (root_elements fields)

/-- `WhitelistProcessor.is_field_need_to_be_dropped(field, parent_fields)`:
loop over the parent fields with early return `False` on a substring hit. -/
def is_field_need_to_be_dropped (field : String) : List String → Bool
  | [] => true
  | p :: ps => if strIn p field then false else is_field_need_to_be_dropped field ps

/-- `WhitelistProcessor.__filter_only_existing_fields(schema, fields)`:
the kept (existing) requested paths, in first-occurrence order. -/
def filter_only_existing_fields (allFields : List String) (fields : List String) : List String :=
  (distinct fields).filter (fun f => is_column_exist allFields f)

/-- The requested paths `__filter_only_existing_fields` logs as not found. -/
def not_found_logged (allFields : List String) (fields : List String) : List String :=
  (distinct fields).filter (fun f => !is_column_exist allFields f)

/-- The `whitelist_parent_fields` value computed inside `find_fields_to_drop`:
the resolved keep-root set. -/
def keep_roots (allFields : List String) (whitelist : List String) : List String :=
  filter_only_parents_fields (filter_only_existing_fields allFields whitelist)

/-- The set comprehension inside `find_fields_to_drop`, for an arbitrary
resolved keep-root set `parents`. -/
def fields_to_drop_for (allFields : List String) (parents : List String) : List String :=
  allFields.filter (fun f => is_field_need_to_be_dropped f parents)

/-- `WhitelistProcessor.find_fields_to_drop`, with the schema of the dataframe
represented by its flattened path set `allFields`. -/
def find_fields_to_drop (allFields : List String) (whitelist : List String) : List String :=
  fields_to_drop_for allFields (keep_roots allFields whitelist)

/-- The claim-side reading of the coverage invariant (spec section 3): the set
of flattened paths some kept root PREFIX-matches.  This follows the words of
the claim, to be compared with the substring rule the code implements. -/
def prefix_matched_paths (allFields : List String) (whitelist : List String) : List String :=
  allFields.filter (fun f =>
    (keep_roots allFields whitelist).any (fun k => k.data.isPrefixOf f.data))

/-- A dataframe: its flattened schema and an abstract row count. -/
structure DataFrame where
  schema : List String
  rows : Nat
deriving DecidableEq, Repr

/-- Modelled from the spec: `drop` lives in
`nestedfunctions/functions/drop.py`, which is not under `src/`.
Spec 6 `drop_field(dataframe, path) -> dataframe`: removes a possibly deeply
nested field.  On the flattened representation this removes the path itself and
every descendant path (those extending it past a `.`); row data is untouched. -/
def dropField (df : DataFrame) (field : String) : DataFrame :=
  DataFrame.mk
    (df.schema.filter (fun g => !(g == field || (field ++ ".").data.isPrefixOf g.data)))
    df.rows

/-- `force_calculation(df) = df.cache()`: materialization, semantically the
identity on schema and rows (spec 6 `materialize`). -/
def force_calculation (df : DataFrame) : DataFrame := df

/-- Observable engine operations issued by `drop_fields`. -/
inductive Op where
  | dropOp (field : String)
  | forceCalc
deriving DecidableEq, Repr

/-- `NUMBER_OF_ITERATIONS_TO_FORCE_CATALYST_FLUSH = 10`. -/
def NUMBER_OF_ITERATIONS_TO_FORCE_CATALYST_FLUSH : Nat := 10

/-- The loop of `WhitelistProcessor.drop_fields`, carrying the enumerate
index and recording the trace of engine operations. -/
def drop_fields_go (df : DataFrame) (idx : Nat) : List String → DataFrame × List Op
  | [] => (df, [])
  | f :: fs =>
    if (idx + 1) % NUMBER_OF_ITERATIONS_TO_FORCE_CATALYST_FLUSH = 0 then
      let rest := drop_fields_go (force_calculation (dropField df f)) (idx + 1) fs
      (rest.1, Op.dropOp f :: Op.forceCalc :: rest.2)
    else
      let rest := drop_fields_go (dropField df f) (idx + 1) fs
      (rest.1, Op.dropOp f :: rest.2)

/-- `WhitelistProcessor.drop_fields(df, fields_to_drop)`: the resulting
dataframe together with the trace of issued operations.  The enumerate
counter starts at 0 for each invocation. -/
def drop_fields (df : DataFrame) (fields_to_drop : List String) : DataFrame × List Op :=
  drop_fields_go df 0 fields_to_drop

/-- `WhitelistProcessor.no_fields_to_select(df)`:
`(flattened - whitelist) == flattened`, i.e. no flattened path of the schema
occurs in the whitelist. -/
def no_fields_to_select (allFields : List String) (whitelist : List String) : Bool :=
  allFields.all (fun f => !(whitelist.contains f))

/-- `WhitelistProcessor.process(df)` with an operation trace.  `df.limit(0)`
is modelled from the spec (zero-row result carrying the original schema). -/
def processT (df : DataFrame) (whitelist : List String) : DataFrame × List Op :=
  if no_fields_to_select df.schema whitelist then (DataFrame.mk df.schema 0, [])
  else drop_fields df (find_fields_to_drop df.schema whitelist)

/-- `WhitelistProcessor.process(df)`: the resulting dataframe. -/
def process (df : DataFrame) (whitelist : List String) : DataFrame :=
  (processT df whitelist).1

/-- The batching policy in the words of the spec (4.3): every drop in request
order, with a forced materialization immediately after the i-th drop exactly
when i is a positive multiple of the batch size, positions counted from the
start of the invocation. -/
def batched_drop_trace (fields : List String) : List Op :=
  fields.enum.flatMap (fun pr =>
    if (pr.1 + 1) % NUMBER_OF_ITERATIONS_TO_FORCE_CATALYST_FLUSH = 0 then
      [Op.dropOp pr.2, Op.forceCalc]
    else [Op.dropOp pr.2])

/-! ## Helper lemmas -/

lemma strIn_iff (needle hay : String) :
    strIn needle hay = true ↔ needle.data <:+: hay.data := by
  simp [strIn]

lemma strIn_self (s : String) : strIn s s = true := by
  simp [strIn_iff]

lemma is_field_need_to_be_dropped_iff (field : String) (parents : List String) :
    is_field_need_to_be_dropped field parents = true ↔
      ∀ p ∈ parents, ¬ p.data <:+: field.data := by
  induction parents with
  | nil => simp [is_field_need_to_be_dropped]
  | cons p ps ih =>
    by_cases h : strIn p field = true
    · simp [is_field_need_to_be_dropped, h, (strIn_iff p field).mp h]
    · rw [strIn_iff] at h
      simp [is_field_need_to_be_dropped, strIn, h, ih]

lemma mem_fields_to_drop_for (allFields parents : List String) (f : String) :
    f ∈ fields_to_drop_for allFields parents ↔
      f ∈ allFields ∧ ∀ p ∈ parents, ¬ p.data <:+: f.data := by
  rw [fields_to_drop_for, List.mem_filter, is_field_need_to_be_dropped_iff]

lemma mem_distinct (l : List String) (a : String) : a ∈ distinct l ↔ a ∈ l := by
  induction l with
  | nil => simp [distinct]
  | cons x xs ih =>
    by_cases hax : a = x
    · subst hax; simp [distinct]
    · simp [distinct, List.mem_filter, ih, hax, bne_iff_ne]

lemma mem_filter_only_existing_fields (allFields fields : List String) (f : String) :
    f ∈ filter_only_existing_fields allFields fields ↔ f ∈ fields ∧ f ∈ allFields := by
  rw [filter_only_existing_fields, List.mem_filter, mem_distinct, is_column_exist,
    List.elem_iff]

/-! ## C1 -/

/-- C1 counterexample.  The claim asserts the drop-set for flattened paths
{"a", "a.b", "a.c", "d"} and whitelist ["a.b", "d"] is exactly {"a.c"}, with the
intermediate path "a" absent.  The substring rule of the code keeps a path only when
some keep-root ("a.b" or "d") occurs inside it; neither occurs inside "a", so
"a" is dropped as well. -/
theorem c1_counterexample :
    "a" ∈ find_fields_to_drop ["a", "a.b", "a.c", "d"] ["a.b", "d"] ∧
    find_fields_to_drop ["a", "a.b", "a.c", "d"] ["a.b", "d"] ≠ ["a.c"] := by
  decide

/-- C1 (amended): for the schema with flattened paths {"a", "a.b", "a.c", "d"}
and whitelist ["a.b", "d"], the computed drop-set is exactly {"a", "a.c"}; the
intermediate path "a" IS in the drop-set, because no keep-root is a substring
of "a". -/
theorem c1_amended_drop_set :
    find_fields_to_drop ["a", "a.b", "a.c", "d"] ["a.b", "d"] = ["a", "a.c"] := by
  decide

/-! ## C3 -/

/-- C3: over every flattened path set and every resolved keep-root set, a
flattened path is placed in the drop-set iff no keep-root occurs as a substring
of it (a path survives exactly when some keep-root appears inside it). -/
theorem c3_drop_iff_no_keep_root_substring (allFields parents : List String) (f : String) :
    f ∈ fields_to_drop_for allFields parents ↔
      f ∈ allFields ∧ ∀ p ∈ parents, ¬ p.data <:+: f.data :=
  mem_fields_to_drop_for allFields parents f

/-! ## C2 -/

/-- C2 counterexample.  The claim states the union of the drop-set with the
flattened paths whose PREFIX matches a kept root covers the full flattened
path set.  For flattened paths {"xab", "ab"} and whitelist ["ab"], the
resolved keep-root set is {"ab"} and the drop-set is empty ("ab" is a
substring of "xab", so "xab" survives), yet no kept root is a prefix of
"xab": the claimed union misses the flattened path "xab". -/
theorem c2_counterexample :
    keep_roots ["xab", "ab"] ["ab"] = ["ab"] ∧
    "xab" ∈ (["xab", "ab"] : List String) ∧
    "xab" ∉ find_fields_to_drop ["xab", "ab"] ["ab"] ∧
    "xab" ∉ prefix_matched_paths ["xab", "ab"] ["ab"] := by
  decide

/-- C2 (amended): for every schema (given by its flattened path set) and
whitelist request, the drop-set is disjoint from the resolved keep-root set,
and it partitions the flattened path set together with the paths that some
kept root matches as a SUBSTRING (the rule the code implements, in place of
the claimed prefix match): every flattened path is dropped or matched, and no
path is both. -/
theorem c2_drop_set_partition (allFields W : List String) :
    (∀ k ∈ keep_roots allFields W, k ∉ find_fields_to_drop allFields W) ∧
    (∀ f ∈ allFields, f ∈ find_fields_to_drop allFields W ∨
      (keep_roots allFields W).any (fun k => strIn k f) = true) ∧
    (∀ f ∈ find_fields_to_drop allFields W, f ∈ allFields ∧
      (keep_roots allFields W).any (fun k => strIn k f) = false) := by
  refine ⟨?_, ?_, ?_⟩
  · intro k hk hmem
    exact ((mem_fields_to_drop_for _ _ _).mp hmem).2 k hk List.infix_rfl
  · intro f hf
    by_cases hd : f ∈ find_fields_to_drop allFields W
    · exact Or.inl hd
    · refine Or.inr ?_
      rw [find_fields_to_drop, mem_fields_to_drop_for] at hd
      push_neg at hd
      obtain ⟨p, hp, hinf⟩ := hd hf
      simp only [List.any_eq_true]
      exact ⟨p, hp, (strIn_iff p f).mpr hinf⟩
  · intro f hf
    rw [find_fields_to_drop, mem_fields_to_drop_for] at hf
    refine ⟨hf.1, ?_⟩
    simp only [List.any_eq_false]
    intro p hp
    simp [strIn_iff]
    exact hf.2 p hp

/-- Witness for C2 at a concrete schema and whitelist. -/
theorem c2_drop_set_partition_witness :
    "a.b" ∉ find_fields_to_drop ["a", "a.b", "a.c", "d"] ["a.b", "d"] ∧
    ("a.c" ∈ find_fields_to_drop ["a", "a.b", "a.c", "d"] ["a.b", "d"] ∨
      (keep_roots ["a", "a.b", "a.c", "d"] ["a.b", "d"]).any
        (fun k => strIn k "a.c") = true) ∧
    ("a" ∈ ["a", "a.b", "a.c", "d"] ∧
      (keep_roots ["a", "a.b", "a.c", "d"] ["a.b", "d"]).any
        (fun k => strIn k "a") = false) :=
  ⟨(c2_drop_set_partition ["a", "a.b", "a.c", "d"] ["a.b", "d"]).1 "a.b" (by decide),
   (c2_drop_set_partition ["a", "a.b", "a.c", "d"] ["a.b", "d"]).2.1 "a.c" (by decide),
   (c2_drop_set_partition ["a", "a.b", "a.c", "d"] ["a.b", "d"]).2.2 "a" (by decide)⟩

/-! ## C4 -/

lemma replace_elements_with_root_go_true (root : String) (fields : List String) :
    replace_elements_with_root_go root fields true =
      fields.filter (fun f => !strIn root f) := by
  induction fields with
  | nil => rfl
  | cons f fs ih =>
    by_cases h : strIn root f = true
    · simp [replace_elements_with_root_go, h, ih]
    · simp only [Bool.not_eq_true] at h
      simp [replace_elements_with_root_go, h, ih]

/-- C4 counterexample.  The claim says the replacement step removes exactly the
requested paths that contain the discovered root as a textual PREFIX, every
other path passing through unchanged.  For the request ["a", "ab", "ba"] the
discovered root is "a"; the path "ba" does not have "a" as a prefix, yet the
code removes it, because `__replace_elements_with_root` tests substring
containment (`root in f`), not prefixes. -/
theorem c4_counterexample :
    root_elements ["a", "ab", "ba"] = ["a"] ∧
    "a".data.isPrefixOf "ba".data = false ∧
    "ba" ∉ filter_only_parents_fields ["a", "ab", "ba"] := by
  decide

/-- C4 (amended): in the root-collapse replacement step, each requested path
that contains the root as a SUBSTRING is removed, the root itself is emitted
exactly once, at the position of the first path containing it, and paths not
containing the root as a substring pass through unchanged. -/
theorem c4_amended_replace_characterization (fields : List String) (root : String) :
    replace_elements_with_root fields root =
      if fields.any (fun f => strIn root f) then
        fields.takeWhile (fun f => !strIn root f) ++
          root :: ((fields.dropWhile (fun f => !strIn root f)).tail.filter
            (fun f => !strIn root f))
      else fields := by
  rw [replace_elements_with_root]
  induction fields with
  | nil => rfl
  | cons f fs ih =>
    by_cases h : strIn root f = true
    · simp [replace_elements_with_root_go, h, List.takeWhile_cons, List.dropWhile_cons,
        replace_elements_with_root_go_true]
    · simp only [Bool.not_eq_true] at h
      by_cases hfs : fs.any (fun f => strIn root f) = true
      · simp [replace_elements_with_root_go, h, hfs, List.takeWhile_cons,
          List.dropWhile_cons, ih]
      · simp only [Bool.not_eq_true] at hfs
        simp [replace_elements_with_root_go, h, hfs, ih]

/-! ## C5 -/

/-- C5: when the whitelist request contains both "a.b" and "a.b.c" and both
paths exist in the schema, the resolved keep-root set is exactly {"a.b"} and
the root-elements warning is recorded. -/
theorem c5_ancestor_collapse (allFields : List String)
    (h1 : "a.b" ∈ allFields) (h2 : "a.b.c" ∈ allFields) :
    keep_roots allFields ["a.b", "a.b.c"] = ["a.b"] ∧
    warning_emitted (filter_only_existing_fields allFields ["a.b", "a.b.c"]) = true := by
  have e : filter_only_existing_fields allFields ["a.b", "a.b.c"] = ["a.b", "a.b.c"] := by
    have c1 : is_column_exist allFields "a.b" = true := by
      rw [is_column_exist, List.elem_iff]; exact h1
    have c2 : is_column_exist allFields "a.b.c" = true := by
      rw [is_column_exist, List.elem_iff]; exact h2
    rw [filter_only_existing_fields]
    rw [show distinct ["a.b", "a.b.c"] = ["a.b", "a.b.c"] from by decide]
    simp [c1, c2]
  rw [keep_roots, e]
  exact ⟨by decide, by decide⟩

/-- Witness for C5 with the two-path schema itself. -/
theorem c5_ancestor_collapse_witness :
    keep_roots ["a.b", "a.b.c"] ["a.b", "a.b.c"] = ["a.b"] ∧
    warning_emitted
      (filter_only_existing_fields ["a.b", "a.b.c"] ["a.b", "a.b.c"]) = true :=
  c5_ancestor_collapse ["a.b", "a.b.c"] (by decide) (by decide)

/-! ## C6 -/

/-- C6: when no requested path exists in the schema (the empty whitelist
included), `process` short-circuits: it returns a zero-row dataframe carrying
the original schema, and the operation trace is empty, so no per-field drop is
performed. -/
theorem c6_empty_selection (df : DataFrame) (W : List String)
    (h : ∀ w ∈ W, w ∉ df.schema) :
    process df W = DataFrame.mk df.schema 0 ∧ (processT df W).2 = [] := by
  have hn : no_fields_to_select df.schema W = true := by
    rw [no_fields_to_select, List.all_eq_true]
    intro f hf
    simp only [Bool.not_eq_eq_eq_not, Bool.not_true, ← Bool.not_eq_true, List.elem_iff]
    intro hfW
    exact h f hfW hf
  rw [process, processT, if_pos hn]
  exact ⟨rfl, rfl⟩

/-- Witness for C6: whitelist ["x"] against a schema with paths {"a", "a.b"}. -/
theorem c6_empty_selection_witness :
    process (DataFrame.mk ["a", "a.b"] 5) ["x"] = DataFrame.mk ["a", "a.b"] 0 ∧
    (processT (DataFrame.mk ["a", "a.b"] 5) ["x"]).2 = [] :=
  c6_empty_selection (DataFrame.mk ["a", "a.b"] 5) ["x"] (by decide)

/-! ## C7 -/

lemma drop_fields_go_trace (fields : List String) : ∀ (idx : Nat) (df : DataFrame),
    (drop_fields_go df idx fields).2 =
      (List.enumFrom idx fields).flatMap (fun pr =>
        if (pr.1 + 1) % NUMBER_OF_ITERATIONS_TO_FORCE_CATALYST_FLUSH = 0 then
          [Op.dropOp pr.2, Op.forceCalc]
        else [Op.dropOp pr.2]) := by
  induction fields with
  | nil => intro idx df; rfl
  | cons f fs ih =>
    intro idx df
    by_cases h : (idx + 1) % NUMBER_OF_ITERATIONS_TO_FORCE_CATALYST_FLUSH = 0
    · simp [drop_fields_go, List.enumFrom, h, ih]
    · simp [drop_fields_go, List.enumFrom, h, ih]

/-- C7: the trace of engine operations issued by `drop_fields` is exactly the
drops in request order with a forced materialization immediately after the
i-th drop whenever i is a positive multiple of 10, positions counted from the
start of the invocation: the batch counter starts at zero for each call
(`enumerate` starts at 0) rather than being shared globally. -/
theorem c7_flush_every_ten (df : DataFrame) (fields : List String) :
    (drop_fields df fields).2 = batched_drop_trace fields := by
  rw [drop_fields, batched_drop_trace, List.enum]
  exact drop_fields_go_trace fields 0 df

/-! ## C8 -/

/-- C8: a requested path absent from the schema is recorded in the not-found
log and excluded from further processing, while every requested path that does
exist is kept for further processing; the filtering itself is total (no
exception path exists in the embedding). -/
theorem c8_not_found_excluded (allFields W : List String) (f : String) :
    (f ∈ W → f ∉ allFields →
      f ∈ not_found_logged allFields W ∧ f ∉ filter_only_existing_fields allFields W) ∧
    (f ∈ W → f ∈ allFields → f ∈ filter_only_existing_fields allFields W) := by
  constructor
  · intro hW hA
    constructor
    · rw [not_found_logged, List.mem_filter, mem_distinct]
      refine ⟨hW, ?_⟩
      simp only [Bool.not_eq_eq_eq_not, Bool.not_true, ← Bool.not_eq_true,
        is_column_exist, List.elem_iff]
      exact hA
    · rw [mem_filter_only_existing_fields]
      intro hc
      exact hA hc.2
  · intro hW hA
    rw [mem_filter_only_existing_fields]
    exact ⟨hW, hA⟩

/-- Witness for C8: request ["a", "b"] against schema paths {"a"}; "b" is
logged and excluded, "a" is still processed. -/
theorem c8_not_found_excluded_witness :
    ("b" ∈ not_found_logged ["a"] ["a", "b"] ∧
      "b" ∉ filter_only_existing_fields ["a"] ["a", "b"]) ∧
    "a" ∈ filter_only_existing_fields ["a"] ["a", "b"] :=
  ⟨(c8_not_found_excluded ["a"] ["a", "b"] "b").1 (by decide) (by decide),
   (c8_not_found_excluded ["a"] ["a", "b"] "a").2 (by decide) (by decide)⟩

/-! ## C9 -/

lemma dropField_schema_subset (df : DataFrame) (x g : String) :
    g ∈ (dropField df x).schema → g ∈ df.schema := by
  rw [dropField]
  exact fun h => (List.mem_filter.mp h).1

lemma dropField_self_not_mem (df : DataFrame) (x : String) :
    x ∉ (dropField df x).schema := by
  rw [dropField]
  intro h
  have hx := (List.mem_filter.mp h).2
  simp at hx

lemma drop_fields_go_schema_subset (fields : List String) :
    ∀ (idx : Nat) (df : DataFrame) (g : String),
      g ∈ (drop_fields_go df idx fields).1.schema → g ∈ df.schema := by
  induction fields with
  | nil => intro idx df g h; exact h
  | cons f fs ih =>
    intro idx df g h
    by_cases hc : (idx + 1) % NUMBER_OF_ITERATIONS_TO_FORCE_CATALYST_FLUSH = 0
    · rw [drop_fields_go, if_pos hc] at h
      exact dropField_schema_subset df f g (ih (idx + 1) (force_calculation (dropField df f)) g h)
    · rw [drop_fields_go, if_neg hc] at h
      exact dropField_schema_subset df f g (ih (idx + 1) (dropField df f) g h)

lemma drop_fields_go_dropped_not_mem (fields : List String) :
    ∀ (idx : Nat) (df : DataFrame) (f : String),
      f ∈ fields → f ∉ (drop_fields_go df idx fields).1.schema := by
  induction fields with
  | nil => intro idx df f h; cases h
  | cons g gs ih =>
    intro idx df f hmem hin
    rcases List.mem_cons.mp hmem with hfg | htail
    · subst hfg
      by_cases hc : (idx + 1) % NUMBER_OF_ITERATIONS_TO_FORCE_CATALYST_FLUSH = 0
      · rw [drop_fields_go, if_pos hc] at hin
        exact dropField_self_not_mem df f
          (drop_fields_go_schema_subset gs (idx + 1) (force_calculation (dropField df f)) f hin)
      · rw [drop_fields_go, if_neg hc] at hin
        exact dropField_self_not_mem df f
          (drop_fields_go_schema_subset gs (idx + 1) (dropField df f) f hin)
    · by_cases hc : (idx + 1) % NUMBER_OF_ITERATIONS_TO_FORCE_CATALYST_FLUSH = 0
      · rw [drop_fields_go, if_pos hc] at hin
        exact ih (idx + 1) (force_calculation (dropField df g)) f htail hin
      · rw [drop_fields_go, if_neg hc] at hin
        exact ih (idx + 1) (dropField df g) f htail hin

/-- C9 counterexample.  For the dataframe with flattened schema
{"a", "a.b", "d"} and whitelist ["a.b", "d"], the first application computes
the drop-set {"a"}; dropping "a" removes "a" and its descendant "a.b", after
which the second application computes the drop-set {} — not the same set. -/
theorem c9_counterexample :
    find_fields_to_drop ["a", "a.b", "d"] ["a.b", "d"] = ["a"] ∧
    find_fields_to_drop (process (DataFrame.mk ["a", "a.b", "d"] 1) ["a.b", "d"]).schema
      ["a.b", "d"] = [] ∧
    (["a"] : List String) ≠ [] := by
  decide

/-- C9 (amended): the second application of the selector with the same
whitelist does not recompute the first drop-set.  If the first application
short-circuited, the second computes the same drop-set and leaves the result
unchanged; otherwise every field of the first drop-set has been removed from
the schema, so the second drop-set is disjoint from the first. -/
theorem c9_amended_second_application (df : DataFrame) (W : List String) :
    (no_fields_to_select df.schema W = true →
      find_fields_to_drop (process df W).schema W = find_fields_to_drop df.schema W ∧
      process (process df W) W = process df W) ∧
    (no_fields_to_select df.schema W = false →
      ∀ f ∈ find_fields_to_drop df.schema W,
        f ∉ find_fields_to_drop (process df W).schema W) := by
  constructor
  · intro h
    have e : process df W = DataFrame.mk df.schema 0 := by
      rw [process, processT, if_pos h]
    refine ⟨by rw [e], ?_⟩
    rw [e]
    have h2 : no_fields_to_select (DataFrame.mk df.schema 0).schema W = true := h
    rw [process, processT, if_pos h2]
  · intro h f hf hin
    have e : process df W = (drop_fields df (find_fields_to_drop df.schema W)).1 := by
      rw [process, processT, if_neg (by simp [h])]
    have hsub : f ∈ (process df W).schema :=
      ((mem_fields_to_drop_for _ _ f).mp hin).1
    rw [e, drop_fields] at hsub
    exact drop_fields_go_dropped_not_mem (find_fields_to_drop df.schema W) 0 df f hf hsub

/-- Witness for C9 (amended), both branches at concrete inputs. -/
theorem c9_amended_second_application_witness :
    "a" ∉ find_fields_to_drop
      (process (DataFrame.mk ["a", "a.b", "d"] 1) ["a.b", "d"]).schema ["a.b", "d"] ∧
    process (process (DataFrame.mk ["x"] 2) ["y"]) ["y"] =
      process (DataFrame.mk ["x"] 2) ["y"] :=
  ⟨(c9_amended_second_application (DataFrame.mk ["a", "a.b", "d"] 1) ["a.b", "d"]).2
      (by decide) "a" (by decide),
   ((c9_amended_second_application (DataFrame.mk ["x"] 2) ["y"]).1 (by decide)).2⟩

/-! ## C10 -/

lemma append_eq_of_isPrefixOf : ∀ (l1 l2 : List Char),
    l1.isPrefixOf l2 = true → ∃ t, l1 ++ t = l2 := by
  intro l1
  induction l1 with
  | nil => intro l2 _; exact ⟨l2, rfl⟩
  | cons a as ih =>
    intro l2 h
    cases l2 with
    | nil => cases h
    | cons b bs =>
      rw [List.isPrefixOf, Bool.and_eq_true, beq_iff_eq] at h
      obtain ⟨t, ht⟩ := ih bs h.2
      exact ⟨t, by rw [h.1, List.cons_append, ht]⟩

lemma strIn_of_isPrefixOf (p q : String) (h : p.data.isPrefixOf q.data = true) :
    strIn p q = true := by
  rw [strIn_iff]
  obtain ⟨t, ht⟩ := append_eq_of_isPrefixOf p.data q.data h
  exact ⟨[], t, by simpa using ht⟩

lemma common_pref_of_isPrefixOf : ∀ (l1 l2 : List Char),
    l1.isPrefixOf l2 = true → common_pref l1 l2 = l1 := by
  intro l1
  induction l1 with
  | nil => intro l2 _; rfl
  | cons a as ih =>
    intro l2 h
    cases l2 with
    | nil => cases h
    | cons b bs =>
      rw [List.isPrefixOf, Bool.and_eq_true, beq_iff_eq] at h
      rw [common_pref, if_pos h.1, ih bs h.2, h.1]

/-- C10: if the surviving request is [p, q] with p a character-level prefix of
q (not a path-segment ancestor), both present in the schema, then p is treated
as a root: the root warning is emitted, q is removed from the keep list, which
becomes exactly [p], and every flattened path containing p as a substring is
kept from dropping. -/
theorem c10_char_level_prefix_root (allFields : List String) (p q : String)
    (hne : p ≠ q) (hp0 : p ≠ "")
    (hpre : p.data.isPrefixOf q.data = true)
    (_hseg : (p ++ ".").data.isPrefixOf q.data = false)
    (hpmem : p ∈ allFields) (hqmem : q ∈ allFields) :
    keep_roots allFields [p, q] = [p] ∧
    warning_emitted (filter_only_existing_fields allFields [p, q]) = true ∧
    ∀ f ∈ allFields, strIn p f = true → f ∉ find_fields_to_drop allFields [p, q] := by
  have hqp : q ≠ p := fun hh => hne hh.symm
  have hd : distinct [p, q] = [p, q] := by
    simp [distinct, hqp]
  have he : filter_only_existing_fields allFields [p, q] = [p, q] := by
    have cp : is_column_exist allFields p = true := by
      rw [is_column_exist, List.elem_iff]; exact hpmem
    have cq : is_column_exist allFields q = true := by
      rw [is_column_exist, List.elem_iff]; exact hqmem
    rw [filter_only_existing_fields, hd]
    simp [cp, cq]
  have hcp : common_pref_str p q = p := by
    rw [common_pref_str, common_pref_of_isPrefixOf p.data q.data hpre]
  have hroots : root_elements [p, q] = [p] := by
    rw [root_elements]
    have h1 : (p != "" && (combinations2 [p, q]).any
        (fun pr => common_pref_str pr.1 pr.2 == p)) = true := by
      simp [combinations2, hcp, hp0]
    have h2 : (q != "" && (combinations2 [p, q]).any
        (fun pr => common_pref_str pr.1 pr.2 == q)) = false := by
      simp [combinations2, hcp, hne]
    rw [List.filter_cons, List.filter_cons, List.filter_nil]
    rw [if_pos h1, if_neg (by rw [h2]; exact Bool.false_ne_true)]
  have hspq : strIn p q = true := strIn_of_isPrefixOf p q hpre
  have hkr : keep_roots allFields [p, q] = [p] := by
    rw [keep_roots, he, filter_only_parents_fields, hroots]
    show replace_elements_with_root [p, q] p = [p]
    rw [replace_elements_with_root]
    simp [replace_elements_with_root_go, strIn_self, hspq]
  refine ⟨hkr, ?_, ?_⟩
  · rw [warning_emitted, he, hroots]
    rfl
  · intro f hf hsf
    rw [find_fields_to_drop, hkr, mem_fields_to_drop_for]
    intro hcontra
    exact hcontra.2 p (List.mem_singleton.mpr rfl) ((strIn_iff p f).mp hsf)

/-- Witness for C10 with p = "ab", q = "abc" and a schema also containing
"xaby", which contains "ab" as a substring and survives. -/
theorem c10_char_level_prefix_root_witness :
    keep_roots ["ab", "abc", "xaby"] ["ab", "abc"] = ["ab"] ∧
    warning_emitted (filter_only_existing_fields ["ab", "abc", "xaby"] ["ab", "abc"]) = true ∧
    "xaby" ∉ find_fields_to_drop ["ab", "abc", "xaby"] ["ab", "abc"] := by
  have h := c10_char_level_prefix_root ["ab", "abc", "xaby"] "ab" "abc"
    (by decide) (by decide) (by decide) (by decide) (by decide) (by decide)
  exact ⟨h.1, h.2.1, h.2.2 "xaby" (by decide) (by decide)⟩

end NestedFunctions
